import Mathlib

/-!
Verification of the lambda-openapi metadata store, decorators and OpenAPI
generator, shallowly embedded from the TypeScript sources:

* src/src/generator/openapi-generator.ts (class OpenApiGenerator)
* src/decorators/api-response.ts (ApiResponse decorator, getApiResponse)
* src/utils/metadata.ts (MetadataManager.addResponse / getResponses)
* src/types/internal.ts, src/types/decorator-options.ts (data model)

JavaScript strings are modelled as Lean String (with character-level work on
List Char); JavaScript plain objects used as string-keyed dictionaries
(paths, responses, content) are modelled as association lists with the
key-overwrite assignment semantics of JS property writes; optional (possibly
undefined) fields become Option; JS truthiness tests on strings, booleans
and objects are modelled explicitly where the source relies on them.
-/

namespace LambdaOpenapi

/-! ## JS object primitives

A JS plain object used as a dictionary keyed by strings: property write
replaces the value of an existing key in place, otherwise appends the key,
and property read returns the first (unique) binding.
-/

/-- Property assignment on a JS object: overwrite the value at an existing
key, or append a fresh key at the end (JS insertion order). -/
def jsSet {β : Type} (m : List (String × β)) (k : String) (v : β) :
    List (String × β) :=
  if m.any (fun p => p.1 == k) then
    m.map (fun p => if p.1 == k then (k, v) else p)
  else
    m ++ [(k, v)]

/-- Property read on a JS object. -/
def jsGet {β : Type} (m : List (String × β)) (k : String) : Option β :=
  (m.find? (fun p => p.1 == k)).map (fun p => p.2)

/-- The keys of a JS object are pairwise distinct. -/
def nodupKeys {β : Type} (m : List (String × β)) : Prop :=
  (m.map Prod.fst).Nodup

/-! ## ASCII case primitives

The generator relies on JavaScript replace with the character class A-Z and
on toLowerCase; both are modelled at the ASCII level, which is exact for the
identifier-shaped handler names the generator receives.
-/

/-- The regex character class A-Z used by generatePathFromFunction. -/
def isUpperAZ (c : Char) : Bool :=
  'A' ≤ c && c ≤ 'Z'

/-- ASCII lowering of one character, the effect of toLowerCase. -/
def asciiToLower (c : Char) : Char :=
  if 'A' ≤ c && c ≤ 'Z' then Char.ofNat (c.toNat + 32) else c

/-- String toLowerCase. -/
def jsToLower (s : String) : String :=
  String.mk (s.data.map asciiToLower)

/-- A substring-containment test, the semantics of String.prototype.includes. -/
def hasInfixChars (pat : List Char) : List Char → Bool
  | [] => pat.isPrefixOf ([] : List Char)
  | c :: cs => pat.isPrefixOf (c :: cs) || hasInfixChars pat cs

/-- String.prototype.includes on strings. -/
def strIncludes (s pat : String) : Bool :=
  hasInfixChars pat.data s.data

/-! ## Data model (src/types/decorator-options.ts, src/types/internal.ts)

Payload values typed any in the source (example values) are modelled as
opaque String payloads; response header metadata is never read by the
generator and is omitted.
-/

/-- TypeReference from decorator-options.ts: either a string type name or a
class-style constructor, of which the generator only ever reads the declared
name. -/
inductive TypeReference where
  | str (s : String)
  | ctor (name : String)

/-- An OpenAPI SchemaObject as produced by the generator: type, items,
description and enum are all optional (a schema spread-merged with enum
values may even lack a type). -/
inductive SchemaObject where
  | mk (type : Option String) (items : Option SchemaObject)
      (description : Option String) (enum : Option (List String))

/-- The type field of a schema. -/
def SchemaObject.type : SchemaObject → Option String
  | .mk t _ _ _ => t

/-- The items field of a schema. -/
def SchemaObject.items : SchemaObject → Option SchemaObject
  | .mk _ i _ _ => i

/-- The description field of a schema. -/
def SchemaObject.description : SchemaObject → Option String
  | .mk _ _ d _ => d

/-- The enum field of a schema. -/
def SchemaObject.enum : SchemaObject → Option (List String)
  | .mk _ _ _ e => e

/-- One media-type entry of a response content map. -/
structure MediaTypeObject where
  schema : Option SchemaObject := none
  exampleVal : Option String := none

/-- ApiResponseMetadata from internal.ts: ApiResponseOptions plus the
application-order index. -/
structure ApiResponseMetadata where
  status : Nat
  description : Option String := none
  type : Option TypeReference := none
  exampleVal : Option String := none
  content : Option (List (String × MediaTypeObject)) := none
  order : Nat

/-- ApiParamMetadata from internal.ts; the TS field named in (a Lean
keyword) is rendered location. -/
structure ApiParamMetadata where
  name : String
  description : Option String := none
  required : Bool
  type : Option TypeReference := none
  exampleVal : Option String := none
  enum : Option (List String) := none
  deprecated : Option Bool := none
  location : String
  order : Nat

/-- ApiOperationMetadata from internal.ts (summary is required in
ApiOperationOptions). -/
structure ApiOperationMetadata where
  functionName : String
  summary : String
  description : Option String := none
  tags : Option (List String) := none
  operationId : Option String := none
  deprecated : Option Bool := none

/-- HandlerMetadata restricted to the kinds the generator consumes
(operation, params, responses); queries, body, security and tags exist in
the source aggregate but are never read by OpenApiGenerator. -/
structure HandlerMetadata where
  operation : Option ApiOperationMetadata := none
  responses : List ApiResponseMetadata := []
  params : List ApiParamMetadata := []

/-! ## OpenAPI output objects (src/types/openapi.ts shapes, as used) -/

/-- A generated ParameterObject. -/
structure ParameterObject where
  name : String
  location : String
  required : Bool
  description : Option String := none
  deprecated : Option Bool := none
  exampleVal : Option String := none
  schema : Option SchemaObject := none

/-- A generated ResponseObject; the generator always assigns description. -/
structure ResponseObject where
  description : String
  content : Option (List (String × MediaTypeObject)) := none

/-- A generated OperationObject; responses is a JS object keyed by
stringified status code. -/
structure OperationObject where
  summary : Option String := none
  description : Option String := none
  tags : Option (List String) := none
  operationId : Option String := none
  deprecated : Option Bool := none
  parameters : Option (List ParameterObject) := none
  responses : List (String × ResponseObject) := []

/-- A path item: a JS object keyed by lower-case HTTP method name. -/
abbrev PathItemObject := List (String × OperationObject)

/-- InfoObject (title and version required). -/
structure InfoObject where
  title : String
  version : String
  description : Option String := none

/-- A server entry. -/
structure ServerObject where
  url : String
  description : Option String := none

/-- A tag entry. -/
structure TagObject where
  name : String
  description : Option String := none

/-- External documentation object. -/
structure ExternalDocsObject where
  url : String
  description : Option String := none

/-- One security requirement: scheme name to scopes. -/
abbrev SecurityRequirement := List (String × List String)

/-- GeneratorConfig, the fields generateSpec reads. -/
structure GeneratorConfig where
  info : InfoObject
  servers : Option (List ServerObject) := none
  security : Option (List SecurityRequirement) := none
  tags : Option (List TagObject) := none
  externalDocs : Option ExternalDocsObject := none

/-- The assembled OpenAPISpec document. -/
structure OpenAPISpec where
  openapi : String
  info : InfoObject
  servers : Option (List ServerObject) := none
  security : Option (List SecurityRequirement) := none
  tags : Option (List TagObject) := none
  externalDocs : Option ExternalDocsObject := none
  paths : List (String × PathItemObject) := []
  components : Option Unit := none

/-! ## JS truthiness helpers for the exact source conditions -/

/-- Truthiness of an optional JS string: undefined and the empty string are
falsy. -/
def jsTruthyOptStr : Option String → Bool
  | some s => s ≠ ""
  | none => false

/-- Truthiness of an optional TypeReference: undefined and the empty string
type name are falsy; constructors are always truthy. -/
def jsTruthyTypeRef : Option TypeReference → Bool
  | some (.str s) => s ≠ ""
  | some (.ctor _) => true
  | none => false

/-- The JS expression a-string-or-else-default (the || fallback on an
optional string, under which the empty string also falls back). -/
def jsStrOr (s : Option String) (d : String) : String :=
  match s with
  | some v => if v = "" then d else v
  | none => d

/-! ## OpenApiGenerator (src/src/generator/openapi-generator.ts) -/

/-- generateSchemaFromStringType: the switch over the primitive type names,
with the lenient default to a string schema. -/
def generateSchemaFromStringType (type : String) : SchemaObject :=
  if type = "string" then ⟨some "string", none, none, none⟩
  else if type = "number" then ⟨some "number", none, none, none⟩
  else if type = "integer" then ⟨some "integer", none, none, none⟩
  else if type = "boolean" then ⟨some "boolean", none, none, none⟩
  else if type = "array" then
    ⟨some "array", some ⟨some "string", none, none, none⟩, none, none⟩
  else if type = "object" then ⟨some "object", none, none, none⟩
  else ⟨some "string", none, none, none⟩

/-- generateSchemaFromType: string references go through the string switch;
constructor references produce the placeholder object schema carrying the
declared name. The trailing default branch of the source is unreachable
because a TypeReference is either a string or a constructor. -/
def generateSchemaFromType : TypeReference → SchemaObject
  | .str s => generateSchemaFromStringType s
  | .ctor name => ⟨some "object", none, some ("Schema for " ++ name), none⟩

/-- The spread-merge of enum values into a possibly-undefined schema, the
effect of assigning the object spread of parameter.schema plus enum. -/
def mergeEnumIntoSchema (s : Option SchemaObject) (e : List String) :
    SchemaObject :=
  match s with
  | some sch => ⟨sch.type, sch.items, sch.description, some e⟩
  | none => ⟨none, none, none, some e⟩

/-- generateParameter: the base object carries name, in and required; the
description, deprecated, example, schema and enum fields are assigned under
the source's JS conditions (truthiness for description, deprecated and type,
an explicit undefined check for example, object truthiness for enum). -/
def generateParameter (paramMetadata : ApiParamMetadata) : ParameterObject :=
  let parameter : ParameterObject :=
    { name := paramMetadata.name
      location := paramMetadata.location
      required := paramMetadata.required }
  let parameter :=
    if jsTruthyOptStr paramMetadata.description then
      { parameter with description := paramMetadata.description }
    else parameter
  let parameter :=
    if paramMetadata.deprecated = some true then
      { parameter with deprecated := paramMetadata.deprecated }
    else parameter
  let parameter :=
    if paramMetadata.exampleVal.isSome then
      { parameter with exampleVal := paramMetadata.exampleVal }
    else parameter
  let parameter :=
    match paramMetadata.type with
    | some t =>
        if jsTruthyTypeRef (some t) then
          { parameter with schema := some (generateSchemaFromType t) }
        else parameter
    | none => parameter
  match paramMetadata.enum with
  | some e =>
      { parameter with schema := some (mergeEnumIntoSchema parameter.schema e) }
  | none => parameter

/-- The body of the per-response loop of generateResponses: build one
ResponseObject from one ApiResponseMetadata. -/
def buildResponse (responseMeta : ApiResponseMetadata) : ResponseObject :=
  let statusCode := toString responseMeta.status
  let response : ResponseObject :=
    { description := jsStrOr responseMeta.description ("Response " ++ statusCode) }
  let response :=
    match responseMeta.type with
    | some t =>
        if jsTruthyTypeRef (some t) then
          { response with
            content :=
              some [("application/json",
                     { schema := some (generateSchemaFromType t) })] }
        else response
    | none => response
  let response :=
    match responseMeta.content with
    | some c => { response with content := some c }
    | none => response
  match responseMeta.exampleVal with
  | some ex =>
      match response.content with
      | some cm =>
          match jsGet cm "application/json" with
          | some mt =>
              { response with
                content :=
                  some (jsSet cm "application/json" { mt with exampleVal := some ex }) }
          | none => response
      | none => response
  | none => response

/-- The accumulation loop of generateResponses: one JS-object write per
response metadata entry, keyed by the stringified status code. -/
def responsesFromMeta (responseMetadata : List ApiResponseMetadata) :
    List (String × ResponseObject) :=
  responseMetadata.foldl
    (fun responses responseMeta =>
      jsSet responses (toString responseMeta.status) (buildResponse responseMeta))
    []

/-- generateResponses: the loop above, followed by the default 200 response
when the built object has no keys. -/
def generateResponses (responseMetadata : List ApiResponseMetadata) :
    List (String × ResponseObject) :=
  let responses := responsesFromMeta responseMetadata
  if responses.length = 0 then
    [("200", { description := "Successful response" })]
  else responses

/-- generateOperation: copy the operation fields when operation metadata is
present, attach parameters only when the params list is non-empty, then
attach the generated responses. -/
def generateOperation (metadata : HandlerMetadata) : OperationObject :=
  let operation : OperationObject := { responses := [] }
  let operation :=
    match metadata.operation with
    | some op =>
        { operation with
          summary := some op.summary
          description := op.description
          tags := op.tags
          operationId := op.operationId
          deprecated := op.deprecated }
    | none => operation
  let operation :=
    if metadata.params.length > 0 then
      { operation with parameters := some (metadata.params.map generateParameter) }
    else operation
  { operation with responses := generateResponses metadata.responses }

/-- The replace of the trailing Handler suffix (anchored, at most once). -/
def stripHandlerSuffix (cs : List Char) : List Char :=
  if ("Handler".data).isSuffixOf cs then cs.take (cs.length - 7) else cs

/-- The global replace inserting a dash before every A-Z character. -/
def dashBeforeUpper (cs : List Char) : List Char :=
  cs.foldr (fun c acc => if isUpperAZ c then '-' :: c :: acc else c :: acc) []

/-- The anchored replace removing one leading dash if present. -/
def stripLeadingDash (cs : List Char) : List Char :=
  match cs with
  | '-' :: rest => rest
  | l => l

/-- generatePathFromFunction: strip the Handler suffix, dash before each
upper-case letter, lower-case, strip one leading dash, and prefix a slash. -/
def generatePathFromFunction (functionName : String) : String :=
  let pathName :=
    stripLeadingDash ((dashBeforeUpper (stripHandlerSuffix functionName.data)).map asciiToLower)
  "/" ++ String.mk pathName

/-- determineHttpMethod: the if-else chain of case-insensitive substring
tests over the handler name. -/
def determineHttpMethod (functionName : String) : String :=
  let lowerName := jsToLower functionName
  if strIncludes lowerName "get" || strIncludes lowerName "list" ||
      strIncludes lowerName "find" then "get"
  else if strIncludes lowerName "post" || strIncludes lowerName "create" then "post"
  else if strIncludes lowerName "put" || strIncludes lowerName "update" then "put"
  else if strIncludes lowerName "delete" || strIncludes lowerName "remove" then "delete"
  else if strIncludes lowerName "patch" then "patch"
  else "get"

/-- The loop body of generatePaths: skip a handler whose metadata carries no
operation, otherwise write the generated operation at the inferred path and
method with JS property-write semantics. The store read of
getHandlerMetadata is modelled by passing each handler's aggregated
HandlerMetadata directly. -/
def generatePathsStep (paths : List (String × PathItemObject))
    (handler : HandlerMetadata) : List (String × PathItemObject) :=
  match handler.operation with
  | none => paths
  | some op =>
      let path := generatePathFromFunction op.functionName
      let operation := generateOperation handler
      let method := determineHttpMethod op.functionName
      let item := (jsGet paths path).getD []
      jsSet paths path (jsSet item method operation)

/-- generatePaths: the fold of the loop body above over the handler list. -/
def generatePaths (handlers : List HandlerMetadata) :
    List (String × PathItemObject) :=
  handlers.foldl generatePathsStep []

/-- generateComponents is a stub returning the empty object. -/
def generateComponents (_handlers : List HandlerMetadata) : Unit := ()

/-- generateSpec: seed the document, copy the optional config sections when
present, then fill paths and the stub components. -/
def generateSpec (config : GeneratorConfig) (handlers : List HandlerMetadata) :
    OpenAPISpec :=
  let spec : OpenAPISpec := { openapi := "3.0.0", info := config.info, paths := [] }
  let spec :=
    match config.servers with
    | some s => { spec with servers := some s }
    | none => spec
  let spec :=
    match config.security with
    | some s => { spec with security := some s }
    | none => spec
  let spec :=
    match config.tags with
    | some t => { spec with tags := some t }
    | none => spec
  let spec :=
    match config.externalDocs with
    | some e => { spec with externalDocs := some e }
    | none => spec
  let spec := { spec with paths := generatePaths handlers }
  { spec with components := some (generateComponents handlers) }

/-! ## Metadata store and the ApiResponse decorator
(src/utils/metadata.ts, src/decorators/api-response.ts)

The store is modelled per observed handler: the stored response collection
of one handler together with the process-wide response order counter. The
array sort with the comparator on order is modelled by a stable merge sort
on the order key.
-/

/-- ApiResponseOptions from decorator-options.ts (headers omitted: never
read downstream). -/
structure ApiResponseOptions where
  status : Nat
  description : Option String := none
  type : Option TypeReference := none
  exampleVal : Option String := none
  content : Option (List (String × MediaTypeObject)) := none

/-- MetadataManager.addResponse: append the new metadata to the existing
collection and sort by the order index (a stable sort, the semantics of the
JS comparator on distinct numeric keys). -/
def addResponse (existing : List ApiResponseMetadata)
    (metadata : ApiResponseMetadata) : List ApiResponseMetadata :=
  (existing ++ [metadata]).mergeSort (fun a b => a.order ≤ b.order)

/-- getApiResponse from api-response.ts: the point lookup by status code,
returning the first entry of the stored collection with that status. -/
def getApiResponse (stored : List ApiResponseMetadata) (status : Nat) :
    Option ApiResponseMetadata :=
  stored.find? (fun response => response.status == status)

/-- The decorator-visible state: the process-wide responseOrder counter and
the stored collection of the one handler under observation. -/
structure RespState where
  responseOrder : Nat
  stored : List ApiResponseMetadata

/-- The metadata record the ApiResponse decorator builds from its options at
a given counter value. -/
def metadataOfOptions (options : ApiResponseOptions) (order : Nat) :
    ApiResponseMetadata :=
  { status := options.status
    description := options.description
    type := options.type
    exampleVal := options.exampleVal
    content := options.content
    order := order }

/-- The ApiResponse decorator applied to the observed handler: build the
metadata record carrying the current counter value, bump the counter, and
commit through MetadataManager.addResponse. -/
def applyApiResponse (options : ApiResponseOptions) (s : RespState) : RespState :=
  { responseOrder := s.responseOrder + 1
    stored := addResponse s.stored (metadataOfOptions options s.responseOrder) }

/-- MetadataManager.getResponses on the observed handler: read back the
stored collection. -/
def getResponses (s : RespState) : List ApiResponseMetadata :=
  s.stored

/-- One process-wide decorator application: either ApiResponse on the
observed handler, or ApiResponse on some other handler, which only advances
the shared counter. -/
inductive RespEvent where
  | here (options : ApiResponseOptions)
  | elsewhere (options : ApiResponseOptions)

/-- Run one decorator application event. -/
def applyRespEvent : RespEvent → RespState → RespState
  | .here o, s => applyApiResponse o s
  | .elsewhere _, s => { s with responseOrder := s.responseOrder + 1 }

/-- Run a sequence of decorator application events. -/
def applyRespEvents (evs : List RespEvent) (s : RespState) : RespState :=
  evs.foldl (fun s e => applyRespEvent e s) s

/-- The options applied to the observed handler, in application order. -/
def hereOptions (evs : List RespEvent) : List ApiResponseOptions :=
  evs.filterMap (fun e =>
    match e with
    | .here o => some o
    | .elsewhere _ => none)

/-- Forget the order index of a stored metadata record, recovering the
options it was built from. -/
def ApiResponseMetadata.toOptions (m : ApiResponseMetadata) : ApiResponseOptions :=
  { status := m.status
    description := m.description
    type := m.type
    exampleVal := m.exampleVal
    content := m.content }

/-! ## Shared lookup helper -/

/-- Two-level read on nested JS objects (paths, then method). -/
def jsGet2 {β : Type} (m : List (String × List (String × β))) (k1 k2 : String) :
    Option β :=
  (jsGet m k1).bind (fun item => jsGet item k2)

/-! ## The C1 end-to-end scenario -/

/-- The generation config of the assembly scenario. -/
def c1config : GeneratorConfig :=
  { info := { title := "User API", version := "1.0.0" } }

/-- The aggregated metadata of getUserHandler in the assembly scenario: the
operation summary, one required string path parameter userId, a 200 response
typed object and an untyped 404 response. -/
def getUserHandlerMeta : HandlerMetadata :=
  { operation := some { functionName := "getUserHandler", summary := "Get user by ID" }
    params := [{ name := "userId", required := true, type := some (.str "string"),
                 location := "path", order := 0 }]
    responses := [{ status := 200, type := some (.str "object"), order := 0 },
                  { status := 404, order := 1 }] }

/-- The document assembled in the scenario. -/
def c1spec : OpenAPISpec := generateSpec c1config [getUserHandlerMeta]

/-- The operation the scenario inspects. -/
def c1op : Option OperationObject := jsGet2 c1spec.paths "/get-user" "get"

/-- C1: end-to-end assembly scenario: for a handler named getUserHandler
with operation summary "Get user by ID", one required string path parameter
userId, a 200 response typed object and an untyped 404 response, generating
the document with info title "User API" version "1.0.0" yields an operation
at paths "/get-user" method get whose summary is "Get user by ID", whose
parameter list has length one, whose 200 response carries an
application/json schema of type object, and whose 404 response has a defined
description. -/
theorem c1_end_to_end_assembly :
    c1op.map (fun op => op.summary) = some (some "Get user by ID")
    ∧ c1op.map (fun op => (op.parameters.getD []).length) = some 1
    ∧ ((((c1op.bind (fun op => jsGet op.responses "200")).bind
          (fun r => r.content)).bind
          (fun cm => jsGet cm "application/json")).bind
          (fun mt => mt.schema)).map SchemaObject.type = some (some "object")
    ∧ (c1op.bind (fun op => jsGet op.responses "404")).map
        (fun r => r.description) = some "Response 404" :=
  ⟨rfl, rfl, rfl, rfl⟩

/-! ## C2: handlers without operation metadata contribute nothing -/

lemma foldl_generatePathsStep_filter (hs : List HandlerMetadata)
    (acc : List (String × PathItemObject)) :
    hs.foldl generatePathsStep acc =
      (hs.filter (fun h => h.operation.isSome)).foldl generatePathsStep acc := by
  induction hs generalizing acc with
  | nil => rfl
  | cons h hs ih =>
      cases hop : h.operation with
      | none =>
          simp only [List.foldl_cons, List.filter_cons, hop, Option.isSome_none,
            Bool.false_eq_true, if_false]
          rw [show generatePathsStep acc h = acc by
            simp [generatePathsStep, hop]]
          exact ih acc
      | some op =>
          simp only [List.foldl_cons, List.filter_cons, hop, Option.isSome_some,
            if_true]
          exact ih (generatePathsStep acc h)

/-- C2: a handler with no OperationMetadata is silently skipped: the paths
object assembled from any handler list equals the one assembled from only
the handlers that carry operation metadata, so operation-less handlers
contribute no entry while the others still contribute theirs. -/
theorem c2_handlers_without_operation_skipped (handlers : List HandlerMetadata) :
    generatePaths handlers =
      generatePaths (handlers.filter (fun h => h.operation.isSome)) :=
  foldl_generatePathsStep_filter handlers []

/-! ## C3: path inference follows the described pipeline

The claim-side function is written from the words of the specification:
strip a trailing Handler suffix, insert a separator before each internal
capitalized letter while lower-casing, strip a leading separator when one is
present, and prefix a slash.
-/

/-- Claim-side: strip one trailing Handler suffix. -/
def specStripHandler (cs : List Char) : List Char :=
  if ("Handler".data).isSuffixOf cs then cs.take (cs.length - 7) else cs

/-- Claim-side: insert a separator before every capitalized letter while
lower-casing; used for all positions after the first. -/
def specDashAll : List Char → List Char
  | [] => []
  | c :: cs =>
      if isUpperAZ c then '-' :: asciiToLower c :: specDashAll cs
      else asciiToLower c :: specDashAll cs

/-- Claim-side: insert a separator before each internal capitalized letter
(the first character never receives one) while lower-casing. -/
def specDashInternal : List Char → List Char
  | [] => []
  | c :: cs => asciiToLower c :: specDashAll cs

/-- Claim-side: strip a leading separator when one is present. -/
def specStripLeading (cs : List Char) : List Char :=
  match cs with
  | '-' :: rest => rest
  | l => l

/-- Claim-side path inference, assembled from the specified steps. -/
def specPathOfName (name : String) : String :=
  "/" ++ String.mk (specStripLeading (specDashInternal (specStripHandler name.data)))

lemma map_asciiToLower_dashBeforeUpper (cs : List Char) :
    (dashBeforeUpper cs).map asciiToLower = specDashAll cs := by
  induction cs with
  | nil => rfl
  | cons c cs ih =>
      by_cases h : isUpperAZ c = true
      · simp [dashBeforeUpper, specDashAll, h, List.foldr_cons, ih,
          show asciiToLower '-' = '-' from rfl]
        exact ih
      · simp only [Bool.not_eq_true] at h
        simp [dashBeforeUpper, specDashAll, h, List.foldr_cons]
        exact ih

lemma toNat_ofNat_of_valid (n : Nat) (h : n.isValidChar) :
    (Char.ofNat n).toNat = n := by
  simp [Char.ofNat, h, Char.ofNatAux, Char.toNat, UInt32.toNat]

lemma asciiToLower_ne_dash_of_upper (c : Char) (h : isUpperAZ c = true) :
    asciiToLower c ≠ '-' := by
  have hb : ('A' ≤ c && c ≤ 'Z') = true := h
  rw [Bool.and_eq_true] at hb
  obtain ⟨h1, h2⟩ := hb
  have h1' : 'A'.toNat ≤ c.toNat := by
    have := of_decide_eq_true h1
    exact this
  have h2' : c.toNat ≤ 'Z'.toNat := by
    have := of_decide_eq_true h2
    exact this
  have hlow : asciiToLower c = Char.ofNat (c.toNat + 32) := by
    simp [asciiToLower, h1, h2]
  have hvalid : (c.toNat + 32).isValidChar := by
    left
    have : 'Z'.toNat = 90 := rfl
    omega
  intro hcontra
  have htn : (Char.ofNat (c.toNat + 32)).toNat = c.toNat + 32 :=
    toNat_ofNat_of_valid _ hvalid
  rw [hlow] at hcontra
  rw [hcontra] at htn
  have hA : 'A'.toNat = 65 := rfl
  have hdash : ('-').toNat = 45 := rfl
  omega

lemma specStripLeading_cons_of_ne (a : Char) (l : List Char) (h : a ≠ '-') :
    specStripLeading (a :: l) = a :: l := by
  unfold specStripLeading
  split
  · rename_i heq
    injection heq with h1 _
    exact absurd h1 h
  · rfl

lemma stripLeadingDash_eq_specStripLeading (l : List Char) :
    stripLeadingDash l = specStripLeading l := by
  unfold stripLeadingDash specStripLeading
  rfl

/-- C3: path inference is the pure function of the declared name that strips
a trailing Handler suffix, inserts a separator before each internal
capitalized letter, lower-cases, strips a leading separator when present and
prefixes a slash; and it maps getUserHandler to /get-user. -/
theorem c3_path_inference_pipeline :
    (∀ name, generatePathFromFunction name = specPathOfName name)
    ∧ generatePathFromFunction "getUserHandler" = "/get-user" := by
  constructor
  · intro name
    unfold generatePathFromFunction specPathOfName
    have hsfx : stripHandlerSuffix name.data = specStripHandler name.data := rfl
    rw [hsfx, map_asciiToLower_dashBeforeUpper,
      stripLeadingDash_eq_specStripLeading]
    cases hbase : specStripHandler name.data with
    | nil => rfl
    | cons c cs =>
        by_cases h : isUpperAZ c = true
        · simp only [specDashAll, specDashInternal, h, if_true]
          rw [show specStripLeading ('-' :: asciiToLower c :: specDashAll cs) =
            asciiToLower c :: specDashAll cs from rfl]
          rw [specStripLeading_cons_of_ne _ _ (asciiToLower_ne_dash_of_upper c h)]
        · simp only [Bool.not_eq_true] at h
          simp only [specDashAll, specDashInternal, h, Bool.false_eq_true, if_false]
  · rfl

/-! ## C4: method inference is first-match over the precedence table -/

/-- Claim-side: the precedence-ordered rule table of the specification, each
rule a set of substrings and the method it yields. -/
def methodRules : List (List String × String) :=
  [(["get", "list", "find"], "get"),
   (["post", "create"], "post"),
   (["put", "update"], "put"),
   (["delete", "remove"], "delete"),
   (["patch"], "patch")]

/-- Claim-side: first-match evaluation of the rule table against the
lower-cased handler name, with the default GET. -/
def specMethodOfName (name : String) : String :=
  let lowerName := jsToLower name
  match methodRules.find?
      (fun rule => rule.1.any (fun pat => strIncludes lowerName pat)) with
  | some rule => rule.2
  | none => "get"

/-- C4: method inference is exactly the case-insensitive first-match over
the precedence table get/list/find, post/create, put/update, delete/remove,
patch, with default GET; and the first matching rule wins even when several
rules match, as on postGetHandler where both the GET and the POST rule match
but GET is returned. -/
theorem c4_method_inference_first_match :
    (∀ name, determineHttpMethod name = specMethodOfName name)
    ∧ determineHttpMethod "postGetHandler" = "get"
    ∧ strIncludes (jsToLower "postGetHandler") "post" = true := by
  refine ⟨?_, rfl, rfl⟩
  intro name
  simp only [determineHttpMethod, specMethodOfName, methodRules]
  cases h1 : strIncludes (jsToLower name) "get" <;>
    cases h2 : strIncludes (jsToLower name) "list" <;>
    cases h3 : strIncludes (jsToLower name) "find" <;>
    cases h4 : strIncludes (jsToLower name) "post" <;>
    cases h5 : strIncludes (jsToLower name) "create" <;>
    cases h6 : strIncludes (jsToLower name) "put" <;>
    cases h7 : strIncludes (jsToLower name) "update" <;>
    cases h8 : strIncludes (jsToLower name) "delete" <;>
    cases h9 : strIncludes (jsToLower name) "remove" <;>
    cases h10 : strIncludes (jsToLower name) "patch" <;>
    simp [List.find?, List.any_cons, h1, h2, h3, h4, h5, h6, h7, h8, h9, h10]

/-! ## C7: the schema mapper is total with the lenient defaults -/

/-- C7: the schema mapper maps each of the six recognized string references
to its primitive schema, with array defaulting items to a string schema;
any other string reference maps to a string schema; and a constructor
reference maps to the placeholder object schema whose description names the
declared type. Being a total function, it never fails. -/
theorem c7_schema_mapper_total (s n : String)
    (h : s ∉ ["string", "number", "integer", "boolean", "array", "object"]) :
    generateSchemaFromType (.str "string") = ⟨some "string", none, none, none⟩
    ∧ generateSchemaFromType (.str "number") = ⟨some "number", none, none, none⟩
    ∧ generateSchemaFromType (.str "integer") = ⟨some "integer", none, none, none⟩
    ∧ generateSchemaFromType (.str "boolean") = ⟨some "boolean", none, none, none⟩
    ∧ generateSchemaFromType (.str "array") =
        ⟨some "array", some ⟨some "string", none, none, none⟩, none, none⟩
    ∧ generateSchemaFromType (.str "object") = ⟨some "object", none, none, none⟩
    ∧ generateSchemaFromType (.str s) = ⟨some "string", none, none, none⟩
    ∧ generateSchemaFromType (.ctor n) =
        ⟨some "object", none, some ("Schema for " ++ n), none⟩ := by
  simp only [List.mem_cons, List.not_mem_nil, or_false, not_or] at h
  obtain ⟨h1, h2, h3, h4, h5, h6⟩ := h
  refine ⟨rfl, rfl, rfl, rfl, rfl, rfl, ?_, rfl⟩
  simp [generateSchemaFromType, generateSchemaFromStringType, h1, h2, h3, h4, h5, h6]

/-- Witness for C7 at the unrecognized reference foo and the constructor
name User. -/
theorem c7_schema_mapper_total_witness :
    ("foo" ∉ ["string", "number", "integer", "boolean", "array", "object"])
    ∧ (generateSchemaFromType (.str "string") = ⟨some "string", none, none, none⟩
      ∧ generateSchemaFromType (.str "number") = ⟨some "number", none, none, none⟩
      ∧ generateSchemaFromType (.str "integer") = ⟨some "integer", none, none, none⟩
      ∧ generateSchemaFromType (.str "boolean") = ⟨some "boolean", none, none, none⟩
      ∧ generateSchemaFromType (.str "array") =
          ⟨some "array", some ⟨some "string", none, none, none⟩, none, none⟩
      ∧ generateSchemaFromType (.str "object") = ⟨some "object", none, none, none⟩
      ∧ generateSchemaFromType (.str "foo") = ⟨some "string", none, none, none⟩
      ∧ generateSchemaFromType (.ctor "User") =
          ⟨some "object", none, some ("Schema for " ++ "User"), none⟩) :=
  ⟨by decide, c7_schema_mapper_total "foo" "User" (by decide)⟩

/-! ## C8: the synthetic 200 response appears exactly for empty metadata -/

lemma jsSet_ne_nil {β : Type} (m : List (String × β)) (k : String) (v : β) :
    jsSet m k v ≠ [] := by
  unfold jsSet
  split
  · rename_i hmem
    cases m with
    | nil => simp [List.any] at hmem
    | cons p rest => simp
  · simp

lemma foldl_jsSet_resp_ne_nil (l : List ApiResponseMetadata)
    (acc : List (String × ResponseObject)) (hacc : acc ≠ []) :
    l.foldl
        (fun responses responseMeta =>
          jsSet responses (toString responseMeta.status) (buildResponse responseMeta))
        acc ≠ [] := by
  induction l generalizing acc with
  | nil => exact hacc
  | cons m rest ih => exact ih _ (jsSet_ne_nil _ _ _)

lemma responsesFromMeta_eq_nil_iff (l : List ApiResponseMetadata) :
    responsesFromMeta l = [] ↔ l = [] := by
  constructor
  · intro h
    cases l with
    | nil => rfl
    | cons m rest =>
        exfalso
        exact foldl_jsSet_resp_ne_nil rest (jsSet [] (toString m.status) (buildResponse m))
          (jsSet_ne_nil _ _ _) h
  · intro h
    subst h
    rfl

lemma mem_keys_jsSet {β : Type} (m : List (String × β)) (k0 k : String) (v : β)
    (h : k ∈ (jsSet m k0 v).map Prod.fst) :
    k ∈ m.map Prod.fst ∨ k = k0 := by
  unfold jsSet at h
  split at h
  · rw [List.map_map] at h
    obtain ⟨p, hp, hpk⟩ := List.mem_map.mp h
    by_cases hk : p.1 == k0
    · right
      simp only [Function.comp, hk, if_pos] at hpk
      exact hpk.symm
    · left
      simp only [Function.comp, hk, if_neg, Bool.false_eq_true] at hpk
      exact List.mem_map.mpr ⟨p, hp, hpk⟩
  · rw [List.map_append] at h
    rcases List.mem_append.mp h with h1 | h2
    · exact Or.inl h1
    · right
      simpa using h2

lemma keys_responsesFromMeta_aux (l : List ApiResponseMetadata)
    (acc : List (String × ResponseObject)) (k : String)
    (h : k ∈ (l.foldl
        (fun responses responseMeta =>
          jsSet responses (toString responseMeta.status) (buildResponse responseMeta))
        acc).map Prod.fst) :
    k ∈ acc.map Prod.fst ∨ k ∈ l.map (fun m => toString m.status) := by
  induction l generalizing acc with
  | nil => exact Or.inl h
  | cons m rest ih =>
      rcases ih _ h with h1 | h2
      · rcases mem_keys_jsSet _ _ _ _ h1 with h3 | h4
        · exact Or.inl h3
        · right
          simp [h4]
      · right
        simp [h2]

/-- C8: generateResponses produces exactly the synthetic 200 entry with
description Successful response when the handler has zero ResponseMetadata
entries and otherwise produces only the per-entry map; every key of the
per-entry map is the stringified status of some actual entry, so no
synthetic 200 entry is added when at least one entry exists. -/
theorem c8_synthetic_200_iff_no_responses (l : List ApiResponseMetadata) :
    generateResponses l =
      (if l.isEmpty then [("200", { description := "Successful response" })]
       else responsesFromMeta l)
    ∧ ((responsesFromMeta l).map Prod.fst).all
        (fun k => (l.map (fun m => toString m.status)).contains k) = true := by
  constructor
  · unfold generateResponses
    cases hl : l with
    | nil => rfl
    | cons m rest =>
        have hne : responsesFromMeta (m :: rest) ≠ [] := by
          intro hcontra
          exact (List.cons_ne_nil m rest) ((responsesFromMeta_eq_nil_iff _).mp hcontra)
        simp only [List.isEmpty_cons, Bool.false_eq_true, if_false]
        rw [if_neg (fun hcontra => hne (List.length_eq_zero.mp hcontra))]
  · rw [List.all_eq_true]
    intro k hk
    rcases keys_responsesFromMeta_aux l [] k hk with h1 | h2
    · simp at h1
    · exact List.elem_eq_true_of_mem h2

/-! ## JS object lemmas shared by the overwrite claims -/

lemma jsSet_cons_of_ne {β : Type} (p : String × β) (rest : List (String × β))
    (k : String) (v : β) (h : (p.1 == k) = false) :
    jsSet (p :: rest) k v = p :: jsSet rest k v := by
  unfold jsSet
  simp only [List.any_cons, h, Bool.false_or, List.map_cons, if_neg,
    Bool.false_eq_true]
  split
  · rfl
  · rfl

lemma jsGet_cons_of_ne {β : Type} (p : String × β) (rest : List (String × β))
    (k : String) (h : (p.1 == k) = false) :
    jsGet (p :: rest) k = jsGet rest k := by
  unfold jsGet
  rw [List.find?_cons]
  simp [h]

lemma jsGet_jsSet_same {β : Type} (m : List (String × β)) (k : String) (v : β) :
    jsGet (jsSet m k v) k = some v := by
  induction m with
  | nil => simp [jsSet, jsGet]
  | cons p rest ih =>
      by_cases hp : (p.1 == k) = true
      · unfold jsSet
        simp only [List.any_cons, hp, Bool.true_or, if_true, List.map_cons, hp]
        simp [jsGet, List.find?_cons]
      · rw [jsSet_cons_of_ne p rest k v (Bool.not_eq_true _ ▸ hp),
          jsGet_cons_of_ne p _ k (Bool.not_eq_true _ ▸ hp)]
        exact ih

lemma jsGet_map_overwrite {β : Type} (m : List (String × β)) (k k' : String)
    (v : β) (h : k ≠ k') :
    jsGet (m.map (fun q => if q.1 == k' then (k', v) else q)) k = jsGet m k := by
  have hkk : ((k' : String) == k) = false := by
    simpa using fun hc => h hc.symm
  induction m with
  | nil => rfl
  | cons q rest ih =>
      by_cases hq : (q.1 == k') = true
      · have hq' : q.1 = k' := by simpa using hq
        simp only [List.map_cons, hq, if_true]
        rw [jsGet_cons_of_ne (k', v) _ k hkk,
          jsGet_cons_of_ne q rest k (by simpa [hq'] using fun hc => h hc.symm)]
        exact ih
      · simp only [List.map_cons, hq, Bool.false_eq_true, if_false]
        by_cases hqk : (q.1 == k) = true
        · unfold jsGet
          rw [List.find?_cons, List.find?_cons]
          simp [hqk]
        · rw [jsGet_cons_of_ne q _ k (Bool.not_eq_true _ ▸ hqk),
            jsGet_cons_of_ne q rest k (Bool.not_eq_true _ ▸ hqk)]
          exact ih

lemma jsGet_jsSet_other {β : Type} (m : List (String × β)) (k k' : String)
    (v : β) (h : k ≠ k') :
    jsGet (jsSet m k' v) k = jsGet m k := by
  have hkk : ((k' : String) == k) = false := by
    simpa using fun hc => h hc.symm
  unfold jsSet
  split
  · exact jsGet_map_overwrite m k k' v h
  · unfold jsGet
    rw [List.find?_append]
    simp [List.find?_cons, hkk]

lemma keys_jsSet_of_any {β : Type} (m : List (String × β)) (k : String) (v : β)
    (hmem : m.any (fun p => p.1 == k) = true) :
    (jsSet m k v).map Prod.fst = m.map Prod.fst := by
  unfold jsSet
  rw [if_pos hmem, List.map_map]
  apply List.map_congr_left
  intro p _
  by_cases hp : (p.1 == k) = true
  · have : p.1 = k := by simpa using hp
    simp [Function.comp, hp, this]
  · simp [Function.comp, Bool.not_eq_true _ ▸ hp]

lemma keys_jsSet_of_not_any {β : Type} (m : List (String × β)) (k : String)
    (v : β) (hmem : m.any (fun p => p.1 == k) = false) :
    (jsSet m k v).map Prod.fst = m.map Prod.fst ++ [k] := by
  unfold jsSet
  rw [if_neg (by simp [hmem]), List.map_append]
  rfl

lemma nodupKeys_jsSet {β : Type} (m : List (String × β)) (k : String) (v : β)
    (h : nodupKeys m) : nodupKeys (jsSet m k v) := by
  by_cases hmem : m.any (fun p => p.1 == k) = true
  · unfold nodupKeys
    rw [keys_jsSet_of_any m k v hmem]
    exact h
  · unfold nodupKeys
    rw [keys_jsSet_of_not_any m k v (Bool.not_eq_true _ ▸ hmem)]
    rw [List.nodup_append]
    refine ⟨h, List.nodup_singleton k, ?_⟩
    intro a ha hb
    have hak : a = k := by simpa using hb
    obtain ⟨p, hp, hpk⟩ := List.mem_map.mp ha
    exact hmem (List.any_eq_true.mpr ⟨p, hp, by simp [hpk, hak]⟩)

lemma mem_jsSet {β : Type} (m : List (String × β)) (k : String) (v : β)
    (q : String × β) (hq : q ∈ jsSet m k v) : q ∈ m ∨ q = (k, v) := by
  unfold jsSet at hq
  split at hq
  · obtain ⟨p, hp, hpq⟩ := List.mem_map.mp hq
    by_cases hpk : (p.1 == k) = true
    · right
      rw [if_pos hpk] at hpq
      exact hpq.symm
    · left
      rw [if_neg (by simp [Bool.not_eq_true _ ▸ hpk])] at hpq
      exact hpq ▸ hp
  · rcases List.mem_append.mp hq with h1 | h2
    · exact Or.inl h1
    · right
      simpa using h2

lemma jsGet_some_mem {β : Type} (m : List (String × β)) (k : String) (v : β)
    (h : jsGet m k = some v) : ∃ p ∈ m, p.2 = v := by
  unfold jsGet at h
  cases hfind : m.find? (fun p => p.1 == k) with
  | none => rw [hfind] at h; simp at h
  | some p =>
      rw [hfind] at h
      refine ⟨p, List.mem_of_find?_eq_some hfind, ?_⟩
      simpa using h

/-! ## C10: in the document, a duplicated status code keeps the last entry -/

/-- The last response metadata in sequence order whose stringified status
code is the given key. -/
def lastRespWith (k : String) (l : List ApiResponseMetadata) :
    Option ApiResponseMetadata :=
  l.reverse.find? (fun m => toString m.status == k)

lemma jsGet_foldl_responses (l : List ApiResponseMetadata)
    (acc : List (String × ResponseObject)) (k : String) :
    jsGet (l.foldl
        (fun responses responseMeta =>
          jsSet responses (toString responseMeta.status) (buildResponse responseMeta))
        acc) k
      = ((lastRespWith k l).map buildResponse).or (jsGet acc k) := by
  induction l generalizing acc with
  | nil => simp [lastRespWith]
  | cons m rest ih =>
      rw [List.foldl_cons, ih]
      unfold lastRespWith
      rw [List.reverse_cons, List.find?_append]
      by_cases hm : (toString m.status == k) = true
      · have hk : toString m.status = k := by simpa using hm
        cases hfind : rest.reverse.find? (fun m => toString m.status == k) with
        | none =>
            rw [hk, jsGet_jsSet_same]
            simp [hfind, List.find?, hm]
        | some m' => simp [hfind]
      · have hk : toString m.status ≠ k := by simpa using hm
        rw [jsGet_jsSet_other _ _ _ _ (fun hc => hk hc.symm)]
        cases hfind : rest.reverse.find? (fun m => toString m.status == k) with
        | none => simp [hfind, List.find?, hm]
        | some m' => simp [hfind]

lemma nodupKeys_foldl_responses (l : List ApiResponseMetadata)
    (acc : List (String × ResponseObject)) (h : nodupKeys acc) :
    nodupKeys (l.foldl
        (fun responses responseMeta =>
          jsSet responses (toString responseMeta.status) (buildResponse responseMeta))
        acc) := by
  induction l generalizing acc with
  | nil => exact h
  | cons m rest ih => exact ih _ (nodupKeys_jsSet _ _ _ h)

/-- C10: for a non-empty stored response collection, the assembled operation
keeps exactly one entry per stringified status code: the responses map has
pairwise distinct keys and the entry under any key equals the response built
from the last metadata entry with that status in sequence order, so later
duplicates overwrite earlier ones in the document. -/
theorem c10_document_responses_last_wins (l : List ApiResponseMetadata)
    (k : String) (hl : l ≠ []) :
    jsGet (generateResponses l) k = (lastRespWith k l).map buildResponse
    ∧ nodupKeys (generateResponses l) := by
  have hne : responsesFromMeta l ≠ [] :=
    fun hc => hl ((responsesFromMeta_eq_nil_iff l).mp hc)
  constructor
  · unfold generateResponses
    rw [if_neg (fun hc => hne (List.length_eq_zero.mp hc))]
    rw [show responsesFromMeta l = l.foldl
        (fun responses responseMeta =>
          jsSet responses (toString responseMeta.status) (buildResponse responseMeta))
        [] from rfl]
    rw [jsGet_foldl_responses]
    simp [jsGet]
  · unfold generateResponses
    rw [if_neg (fun hc => hne (List.length_eq_zero.mp hc))]
    exact nodupKeys_foldl_responses l [] (by simp [nodupKeys])

/-- The earlier duplicate 200 entry of the C10 witness. -/
def c10meta1 : ApiResponseMetadata :=
  { status := 200, description := some "first", order := 0 }

/-- The later duplicate 200 entry of the C10 witness. -/
def c10meta2 : ApiResponseMetadata :=
  { status := 200, description := some "second", order := 1 }

/-- Witness for C10 on two duplicate 200 entries: the document lookup at key
200 is built from the later entry. -/
theorem c10_document_responses_last_wins_witness :
    ([c10meta1, c10meta2] ≠ ([] : List ApiResponseMetadata))
    ∧ lastRespWith "200" [c10meta1, c10meta2] = some c10meta2
    ∧ (jsGet (generateResponses [c10meta1, c10meta2]) "200" =
        (lastRespWith "200" [c10meta1, c10meta2]).map buildResponse
      ∧ nodupKeys (generateResponses [c10meta1, c10meta2])) :=
  ⟨List.cons_ne_nil _ _, rfl,
    c10_document_responses_last_wins [c10meta1, c10meta2] "200"
      (List.cons_ne_nil _ _)⟩

/-! ## C9: colliding path and method pairs resolve to the last handler -/

/-- Whether a handler carries operation metadata and resolves to the given
path and method under the inference heuristics. -/
def handlerHits (path method : String) (h : HandlerMetadata) : Bool :=
  match h.operation with
  | some op =>
      generatePathFromFunction op.functionName == path &&
        determineHttpMethod op.functionName == method
  | none => false

/-- The last handler in list order that resolves to the given path and
method. -/
def lastHandlerAt (path method : String) (handlers : List HandlerMetadata) :
    Option HandlerMetadata :=
  handlers.reverse.find? (handlerHits path method)

lemma jsGet2_generatePathsStep (acc : List (String × PathItemObject))
    (h : HandlerMetadata) (p m : String) :
    jsGet2 (generatePathsStep acc h) p m =
      if handlerHits p m h then some (generateOperation h) else jsGet2 acc p m := by
  cases hop : h.operation with
  | none => simp [generatePathsStep, handlerHits, hop]
  | some op =>
      simp only [generatePathsStep, handlerHits, hop]
      by_cases hp : (generatePathFromFunction op.functionName == p) = true
      · have hp' : generatePathFromFunction op.functionName = p := by simpa using hp
        by_cases hm : (determineHttpMethod op.functionName == m) = true
        · have hm' : determineHttpMethod op.functionName = m := by simpa using hm
          rw [if_pos (by simp [hp, hm])]
          unfold jsGet2
          rw [hp', hm', jsGet_jsSet_same]
          simp [jsGet_jsSet_same]
        · have hm' : determineHttpMethod op.functionName ≠ m := by simpa using hm
          rw [if_neg (by simp [hm])]
          unfold jsGet2
          rw [hp', jsGet_jsSet_same]
          simp only [Option.some_bind]
          rw [jsGet_jsSet_other _ _ _ _ (fun hc => hm' hc.symm)]
          cases hjg : jsGet acc p with
          | none => simp [hjg, jsGet]
          | some it => simp [hjg]
      · have hp' : generatePathFromFunction op.functionName ≠ p := by simpa using hp
        rw [if_neg (by simp [hp])]
        unfold jsGet2
        rw [jsGet_jsSet_other _ _ _ _ (fun hc => hp' hc.symm)]

lemma jsGet2_foldl_paths (hs : List HandlerMetadata)
    (acc : List (String × PathItemObject)) (p m : String) :
    jsGet2 (hs.foldl generatePathsStep acc) p m =
      ((lastHandlerAt p m hs).map generateOperation).or (jsGet2 acc p m) := by
  induction hs generalizing acc with
  | nil => simp [lastHandlerAt]
  | cons h hs ih =>
      rw [List.foldl_cons, ih]
      unfold lastHandlerAt
      rw [List.reverse_cons, List.find?_append]
      rw [jsGet2_generatePathsStep]
      by_cases hh : handlerHits p m h = true
      · cases hfind : hs.reverse.find? (handlerHits p m) with
        | none => simp [hfind, List.find?, hh]
        | some h' => simp [hfind]
      · cases hfind : hs.reverse.find? (handlerHits p m) with
        | none => simp [hfind, List.find?, hh, Bool.not_eq_true _ ▸ hh]
        | some h' => simp [hfind]

lemma generatePathsStep_preserves_nodup (acc : List (String × PathItemObject))
    (h : HandlerMetadata) (h1 : nodupKeys acc)
    (h2 : ∀ q ∈ acc, nodupKeys q.2) :
    nodupKeys (generatePathsStep acc h)
    ∧ ∀ q ∈ generatePathsStep acc h, nodupKeys q.2 := by
  cases hop : h.operation with
  | none =>
      constructor
      · simpa [generatePathsStep, hop] using h1
      · simpa [generatePathsStep, hop] using h2
  | some op =>
      unfold generatePathsStep
      rw [hop]
      have hitem : nodupKeys ((jsGet acc (generatePathFromFunction op.functionName)).getD []) := by
        cases hjg : jsGet acc (generatePathFromFunction op.functionName) with
        | none => simp [nodupKeys]
        | some it =>
            obtain ⟨q, hq, hq2⟩ := jsGet_some_mem _ _ _ hjg
            simpa [hq2] using h2 q hq
      constructor
      · exact nodupKeys_jsSet _ _ _ h1
      · intro q hq
        rcases mem_jsSet _ _ _ _ hq with hmem | heq
        · exact h2 q hmem
        · rw [heq]
          exact nodupKeys_jsSet _ _ _ hitem

lemma foldl_paths_preserves_nodup (hs : List HandlerMetadata)
    (acc : List (String × PathItemObject)) (h1 : nodupKeys acc)
    (h2 : ∀ q ∈ acc, nodupKeys q.2) :
    nodupKeys (hs.foldl generatePathsStep acc)
    ∧ ∀ q ∈ hs.foldl generatePathsStep acc, nodupKeys q.2 := by
  induction hs generalizing acc with
  | nil => exact ⟨h1, h2⟩
  | cons h hs ih =>
      obtain ⟨h1', h2'⟩ := generatePathsStep_preserves_nodup acc h h1 h2
      exact ih _ h1' h2'

/-- C9: the operation recorded at any path and method of the assembled
document is exactly the one built from the last handler in list order that
resolves to that pair, so colliding handlers overwrite earlier ones; the
paths object and every path item have pairwise distinct keys, so exactly one
operation sits at each pair, and assembly is a total function that raises
nothing. -/
theorem c9_path_method_collisions_last_wins (handlers : List HandlerMetadata)
    (path method : String) :
    jsGet2 (generatePaths handlers) path method =
      (lastHandlerAt path method handlers).map generateOperation
    ∧ nodupKeys (generatePaths handlers)
    ∧ List.Forall (fun pi => nodupKeys pi.2) (generatePaths handlers) := by
  have hinv := foldl_paths_preserves_nodup handlers [] (by simp [nodupKeys])
    (by intro q hq; simp at hq)
  refine ⟨?_, hinv.1, ?_⟩
  · unfold generatePaths
    rw [jsGet2_foldl_paths]
    simp [jsGet2, jsGet]
  · rw [List.forall_iff_forall_mem]
    exact hinv.2

/-! ## C5 and C6: store ordering under the global response counter -/

/-- The invariant the decorator maintains on the observed handler: every
stored order index is below the counter, and the stored collection is
strictly increasing in order indices. -/
def RespInv (s : RespState) : Prop :=
  (∀ m ∈ s.stored, m.order < s.responseOrder)
  ∧ s.stored.Pairwise (fun a b => a.order < b.order)

lemma addResponse_append (l : List ApiResponseMetadata) (m : ApiResponseMetadata)
    (hlt : ∀ x ∈ l, x.order < m.order)
    (hsort : l.Pairwise (fun a b => a.order < b.order)) :
    addResponse l m = l ++ [m] := by
  unfold addResponse
  apply List.mergeSort_of_sorted
  rw [List.pairwise_append]
  refine ⟨?_, by simp, ?_⟩
  · exact hsort.imp (fun h => by simp; omega)
  · intro a ha b hb
    have hb' : b = m := by simpa using hb
    have := hlt a ha
    simp [hb']
    omega

lemma applyRespEvent_invariant (e : RespEvent) (s : RespState) (h : RespInv s) :
    (applyRespEvent e s).stored
      = s.stored ++
        (match e with
         | .here o => [metadataOfOptions o s.responseOrder]
         | .elsewhere _ => [])
    ∧ RespInv (applyRespEvent e s) := by
  obtain ⟨hlt, hsort⟩ := h
  cases e with
  | elsewhere o =>
      refine ⟨by simp [applyRespEvent], ?_, hsort⟩
      intro m hm
      have := hlt m hm
      simp [applyRespEvent]
      omega
  | here o =>
      have happ : addResponse s.stored (metadataOfOptions o s.responseOrder)
          = s.stored ++ [metadataOfOptions o s.responseOrder] :=
        addResponse_append _ _ (fun x hx => hlt x hx) hsort
      refine ⟨by simp [applyRespEvent, applyApiResponse, happ], ?_, ?_⟩
      · intro m hm
        simp only [applyRespEvent, applyApiResponse, happ] at hm ⊢
        rcases List.mem_append.mp hm with h1 | h2
        · have := hlt m h1
          omega
        · have hm' : m = metadataOfOptions o s.responseOrder := by simpa using h2
          simp [hm', metadataOfOptions]
      · simp only [applyRespEvent, applyApiResponse, happ]
        rw [List.pairwise_append]
        refine ⟨hsort, by simp, ?_⟩
        intro a ha b hb
        have hb' : b = metadataOfOptions o s.responseOrder := by simpa using hb
        have := hlt a ha
        simp [hb', metadataOfOptions]
        omega

lemma applyRespEvents_invariant (evs : List RespEvent) (s : RespState)
    (h : RespInv s) :
    (applyRespEvents evs s).stored.map ApiResponseMetadata.toOptions
      = s.stored.map ApiResponseMetadata.toOptions ++ hereOptions evs
    ∧ RespInv (applyRespEvents evs s) := by
  induction evs generalizing s with
  | nil => simp [applyRespEvents, hereOptions, h]
  | cons e evs ih =>
      obtain ⟨hst, hinv⟩ := applyRespEvent_invariant e s h
      have hfold : applyRespEvents (e :: evs) s = applyRespEvents evs (applyRespEvent e s) := rfl
      obtain ⟨ih1, ih2⟩ := ih (applyRespEvent e s) hinv
      rw [hfold]
      refine ⟨?_, ih2⟩
      rw [ih1, hst]
      cases e with
      | here o => simp [hereOptions, metadataOfOptions, ApiResponseMetadata.toOptions]
      | elsewhere o => simp [hereOptions]

/-- C5: for a handler annotated with response entries in a given application
order, possibly interleaved with applications to other handlers and with no
counter reset, getResponses returns exactly those entries in the same
application order (each carrying the options it was applied with), with
strictly increasing sequence indices, regardless of status codes; reads are
pure so the ordering is preserved on every read. -/
theorem c5_responses_ordered_strictly_increasing (evs : List RespEvent) (c : Nat) :
    (getResponses (applyRespEvents evs ⟨c, []⟩)).map ApiResponseMetadata.toOptions
      = hereOptions evs
    ∧ List.Chain' (· < ·)
        ((getResponses (applyRespEvents evs ⟨c, []⟩)).map (fun m => m.order)) := by
  have hinv : RespInv ⟨c, []⟩ := ⟨by simp, by simp⟩
  obtain ⟨h1, h2⟩ := applyRespEvents_invariant evs ⟨c, []⟩ hinv
  refine ⟨by simpa [getResponses] using h1, ?_⟩
  have hpw : ((applyRespEvents evs ⟨c, []⟩).stored.map (fun m => m.order)).Pairwise (· < ·) :=
    List.pairwise_map.mpr h2.2
  exact hpw.chain'

/-- C6: adding two response entries with status 200 to a fresh handler keeps
both in the stored collection (length two) while the point lookup by status
200 returns the first-added entry. -/
theorem c6_duplicate_status_first_lookup (o1 o2 : ApiResponseOptions) (c : Nat)
    (h1 : o1.status = 200) (h2 : o2.status = 200) :
    (applyApiResponse o2 (applyApiResponse o1 ⟨c, []⟩)).stored.length = 2
    ∧ getApiResponse (applyApiResponse o2 (applyApiResponse o1 ⟨c, []⟩)).stored 200
        = some (metadataOfOptions o1 c) := by
  have hs1 : (applyApiResponse o1 ⟨c, []⟩).stored = [metadataOfOptions o1 c] := by
    simp only [applyApiResponse]
    rw [addResponse_append [] _ (by simp) (by simp)]
    rfl
  have hs2 : (applyApiResponse o2 (applyApiResponse o1 ⟨c, []⟩)).stored
      = [metadataOfOptions o1 c, metadataOfOptions o2 (c + 1)] := by
    rw [show (applyApiResponse o2 (applyApiResponse o1 ⟨c, []⟩)).stored
        = addResponse (applyApiResponse o1 ⟨c, []⟩).stored
            (metadataOfOptions o2 (applyApiResponse o1 ⟨c, []⟩).responseOrder)
        from rfl,
      hs1,
      show (applyApiResponse o1 ⟨c, []⟩).responseOrder = c + 1 from rfl]
    rw [addResponse_append [metadataOfOptions o1 c] _
      (by intro x hx
          simp only [List.mem_singleton] at hx
          simp [hx, metadataOfOptions]) (by simp)]
    rfl
  rw [hs2]
  refine ⟨rfl, ?_⟩
  unfold getApiResponse
  rw [List.find?_cons]
  have : (metadataOfOptions o1 c).status == 200 := by
    simp [metadataOfOptions, h1]
  simp [this]

/-- Witness for C6 at two concrete 200-status options and counter five. -/
theorem c6_duplicate_status_first_lookup_witness :
    (({ status := 200, description := some "User found" } : ApiResponseOptions).status = 200)
    ∧ (({ status := 200, description := some "Dup" } : ApiResponseOptions).status = 200)
    ∧ ((applyApiResponse { status := 200, description := some "Dup" }
          (applyApiResponse { status := 200, description := some "User found" }
            ⟨5, []⟩)).stored.length = 2
      ∧ getApiResponse
          (applyApiResponse { status := 200, description := some "Dup" }
            (applyApiResponse { status := 200, description := some "User found" }
              ⟨5, []⟩)).stored 200
          = some (metadataOfOptions { status := 200, description := some "User found" } 5)) :=
  ⟨rfl, rfl,
    c6_duplicate_status_first_lookup
      { status := 200, description := some "User found" }
      { status := 200, description := some "Dup" } 5 rfl rfl⟩

end LambdaOpenapi
